import Mathlib

/-!
Verification of the scanipy orchestration core against its specification.

The definitions below are a shallow embedding of the Python sources:
  * `tools/semgrep/results_db.py` — `ResultsDatabase` (`save_result`,
    `get_session_results`, `get_analyzed_repos`, `acquire_job_slot`);
  * `services/api/validators.py` — `validate_session_id`,
    `validate_repo_name`, `validate_repo_url`;
  * `services/api/job_template.py` — `generate_job_name`;
  * `services/api/api.py` — `get_scan_status`, `add_repos_to_scan`,
    `update_job_status`.

The SQLite results table is modelled as a list of rows kept in rowid order:
`INSERT OR REPLACE` deletes any row with the same `(session_id, repo_name)`
key and appends a fresh row at the end (a fresh AUTOINCREMENT id is always
the largest, so `ORDER BY id` is list order).  External effects (the
Kubernetes live-job counter, job creation, job-status reads, timestamps)
are passed in as explicit environment values: `Except Unit α` models a
Python call that either returns a value or raises.

Python `int` session ids are modelled as `Nat`; nonpositive ids collapse to
`0`, which `validate_session_id` rejects exactly as the source rejects
`session_id <= 0`.
-/

/-- Row of the `analysis_results` table (`_init_sqlite` in results_db.py).
`output = ""` marks a pending row; `s3_path`, `k8s_job_id` and
`k8s_job_name` are nullable columns. -/
structure ResultRow where
  session_id : Nat
  repo_name : String
  repo_url : String
  success : Bool
  output : String
  analyzed_at : String
  s3_path : Option String
  k8s_job_id : Option String
  k8s_job_name : Option String
deriving Repr, DecidableEq

/-- The results table, in rowid order. -/
abbrev ResultsDB : Type := List ResultRow

/-- Does a row belong to the uniqueness key `(session_id, repo_name)`? -/
def keyMatch (session_id : Nat) (repo_name : String) (r : ResultRow) : Bool :=
  r.session_id == session_id && r.repo_name == repo_name

/-- `ResultsDatabase.save_result`: `INSERT OR REPLACE INTO analysis_results`
keyed by `UNIQUE(session_id, repo_name)` — conflicting rows are deleted and
the new row is inserted with a fresh (largest) rowid. -/
def save_result (db : ResultsDB) (session_id : Nat) (repo_name repo_url : String)
    (success : Bool) (output analyzed_at : String)
    (s3_path k8s_job_id k8s_job_name : Option String) : ResultsDB :=
  db.filter (fun r => !(keyMatch session_id repo_name r)) ++
    [⟨session_id, repo_name, repo_url, success, output, analyzed_at,
      s3_path, k8s_job_id, k8s_job_name⟩]

/-- `ResultsDatabase.get_session_results`: `SELECT ... WHERE session_id = ?
ORDER BY id`. -/
def get_session_results (db : ResultsDB) (session_id : Nat) : List ResultRow :=
  db.filter (fun r => r.session_id == session_id)

/-- `ResultsDatabase.get_analyzed_repos`: `SELECT repo_name ... WHERE
session_id = ?`, read as a set of names (membership is all that is used). -/
def get_analyzed_repos (db : ResultsDB) (session_id : Nat) : List String :=
  (db.filter (fun r => r.session_id == session_id)).map (fun r => r.repo_name)

/-- `ResultsDatabase.acquire_job_slot`: inside the session-scoped critical
section the live count is queried; if the query raises, the count is taken
to be `max_parallel` (conservative); the slot is granted iff the observed
count is strictly below `max_parallel`.  Both the PostgreSQL and the SQLite
branch compute exactly this pair. -/
def acquire_job_slot (session_id : Nat) (max_parallel : Nat)
    (count_active_jobs : Nat → Except Unit Nat) : Bool × Nat :=
  let active_count : Nat :=
    match count_active_jobs session_id with
    | .ok n => n
    | .error _ => max_parallel
  (decide (active_count < max_parallel), active_count)

/-- `validate_session_id`: positive and at most `2^31 - 1`. -/
def validate_session_id (session_id : Nat) : Bool :=
  decide (0 < session_id) && decide (session_id ≤ 2 ^ 31 - 1)

/-- Characters admitted by the repo-name regex class `[a-zA-Z0-9._-]`. -/
def allowedNameChar (c : Char) : Bool :=
  c.isAlpha || c.isDigit || c == '.' || c == '_' || c == '-'

/-- Splits a character list on a separator character, Python `str.split`
style: `n` separators yield `n + 1` (possibly empty) fields. -/
def splitOnChar (sep : Char) : List Char → List (List Char)
  | [] => [[]]
  | c :: rest =>
    let tail := splitOnChar sep rest
    if c == sep then
      [] :: tail
    else
      match tail with
      | [] => [[c]]
      | f :: fs => (c :: f) :: fs

/-- `re.match(r"^[a-zA-Z0-9._-]+/[a-zA-Z0-9._-]+$", name)`: Python's `$`
(without `re.MULTILINE`) also matches just before a single newline at the
very end of the string, so a name with one trailing `\n` is accepted; the
character class itself excludes newlines, so stripping that one trailing
newline before anchoring is exact.  A match means exactly one `/` splitting
the (stripped) name into two nonempty runs of allowed characters. -/
def namePatternMatches (chars : List Char) : Bool :=
  match splitOnChar '/' (if chars.getLast? = some '\n' then chars.dropLast else chars) with
  | [owner, repo] =>
    !owner.isEmpty && !repo.isEmpty &&
    owner.all allowedNameChar && repo.all allowedNameChar
  | _ => false

/-- `validate_repo_name`: nonempty and matching the regex (see
`namePatternMatches`; an empty name fails the match, subsuming the
explicit emptiness check); then the *unstripped* name is split on `/` into
exactly two parts of at most 100 characters each (a trailing newline counts
toward the repo part's length, as in the source). -/
def validate_repo_name (name : String) : Bool :=
  if !(namePatternMatches name.data) then false
  else
    match splitOnChar '/' name.data with
    | [owner, repo] => decide (owner.length ≤ 100) && decide (repo.length ≤ 100)
    | _ => false

/-- Strips a case-insensitive `http://` or `https://` scheme, returning the
remainder, or `none` when the scheme is neither (urlparse lowercases the
scheme before the validator compares it). -/
def dropHttpScheme (url : List Char) : Option (List Char) :=
  if (url.take 8).map Char.toLower = "https://".data then some (url.drop 8)
  else if (url.take 7).map Char.toLower = "http://".data then some (url.drop 7)
  else none

/-- Characters `urlsplit` removes from anywhere in the URL before parsing
(ASCII tab, carriage return, line feed). -/
def urlRemovedChar (c : Char) : Bool :=
  c == '\t' || c == '\r' || c == '\n'

/-- `urlparse`'s `_splitparams`, keeping only the path: when the path
contains a `/`, the first `;` at or after the final `/` starts the params
(a `;` in an earlier segment stays in the path); with no `/`, the first `;`
anywhere does. -/
def splitParamsFromPath (path : List Char) : List Char :=
  if path.contains '/' then
    let lastSeg := (path.reverse.takeWhile (fun c => !(c == '/'))).reverse
    path.take (path.length - lastSeg.length) ++
      lastSeg.takeWhile (fun c => !(c == ';'))
  else
    path.takeWhile (fun c => !(c == ';'))

/-- `validate_repo_url`: nonempty (checked on the raw string), then parsed
as urlparse does — tab/CR/LF removed everywhere, `http(s)` scheme, netloc
(everything after the scheme separator up to the first `/`, `?` or `#`)
exactly `github.com` or `www.github.com`, query/fragment and then the last
segment's `;params` cut from the path — and finally at least two nonempty
path segments whose `owner/repo` passes `validate_repo_name`. -/
def validate_repo_url (url : String) : Bool :=
  if url.data.isEmpty then false
  else
    match dropHttpScheme (url.data.filter (fun c => !(urlRemovedChar c))) with
    | none => false
    | some rest =>
      let netloc := rest.takeWhile (fun c => !(c == '/') && !(c == '?') && !(c == '#'))
      if !(netloc = "github.com".data || netloc = "www.github.com".data : Bool) then false
      else
        let rawPath := (rest.drop netloc.length).takeWhile (fun c => !(c == '?') && !(c == '#'))
        match (splitOnChar '/' (splitParamsFromPath rawPath)).filter (fun s => !s.isEmpty) with
        | owner :: repo :: _ => validate_repo_name (String.mk (owner ++ '/' :: repo))
        | _ => false

/-- Character sanitation of `generate_job_name`: the chained
`.replace("/", "-").replace("_", "-").replace(".", "-")` (all single-character
patterns, hence a per-character map) followed by `.lower()`. -/
def sanitizeChar (c : Char) : Char :=
  if c == '/' || c == '_' || c == '.' then '-' else c.toLower

/-- `generate_job_name`: sanitize the repo name, truncate to 40 characters,
and assemble `semgrep-{session_id}-{safe_repo}-{unique_suffix}`.  The
`unique_suffix` parameter stands for `str(uuid.uuid4())[:8]`. -/
def generate_job_name (session_id : Nat) (repo_name : String) (unique_suffix : String) : String :=
  let safe_repo := String.mk ((repo_name.data.map sanitizeChar).take 40)
  "semgrep-" ++ Nat.repr session_id ++ "-" ++ safe_repo ++ "-" ++ unique_suffix

/-- Counts a Kubernetes Job status read exposes: `active`, `succeeded`,
`failed` pod counts (`KubernetesClient.get_job_status`). -/
structure JobStatusCounts where
  active : Nat
  succeeded : Nat
  failed : Nat
deriving Repr, DecidableEq

/-- Outcome of reading one job from the Kubernetes backend: the job exists
with its counts, it is gone (HTTP 404, post-cleanup), or the read fails
with some other error. -/
inductive K8sJobRead where
  | found (counts : JobStatusCounts)
  | notFound
  | apiError
deriving Repr, DecidableEq

/-- `KubernetesClient.get_job_status` as observed by `get_scan_status`:
a 404 returns an error payload carrying no counts, which the caller's
`.get("active", 0)` etc. read as all-zero; any other backend error raises. -/
def get_job_status (read : String → K8sJobRead) (job_name : String) :
    Except Unit JobStatusCounts :=
  match read job_name with
  | .found c => .ok c
  | .notFound => .ok ⟨0, 0, 0⟩
  | .apiError => .error ()

/-- Truthiness of an optional string (Python: `None` and `""` are falsy). -/
def strOptTruthy : Option String → Bool
  | none => false
  | some s => !(s == "")

/-- One iteration of the job-status loop in `get_scan_status`: does this
result row count as finished?  With a truthy `k8s_job_name` the live status
decides — finished iff `(succeeded > 0 or failed > 0) and active == 0`,
and a raising status read is assumed finished; with only a truthy
`k8s_job_id` (legacy), finished iff the stored output is nonempty;
with neither, the loop body does nothing and the row never unsets the
all-finished flag. -/
def jobRecordFinished (read : String → K8sJobRead) (r : ResultRow) : Bool :=
  if strOptTruthy r.k8s_job_name then
    match get_job_status read (r.k8s_job_name.getD "") with
    | .ok st => decide ((0 < st.succeeded ∨ 0 < st.failed) ∧ st.active = 0)
    | .error _ => true
  else if strOptTruthy r.k8s_job_id then
    !(r.output == "")
  else
    true

/-- Response of `GET /api/v1/scans/{session_id}` (`ScanStatusResponse`). -/
structure ScanStatusResponse where
  session_id : Nat
  status : String
  total_repos : Nat
  completed_repos : Nat
  failed_repos : Nat
  jobs : List (String × String × JobStatusCounts)
deriving Repr, DecidableEq

/-- `get_scan_status` after the session-existence check: fetch the session's
results; count successes; with a Kubernetes client (`some read`) a scan is
complete iff there is at least one result and every row passes
`jobRecordFinished`; without one, iff there is at least one result and every
row has nonempty output.  The `jobs` list collects the statuses that were
read without raising, for rows with a truthy job name. -/
def get_scan_status (db : ResultsDB) (session_id : Nat)
    (k8s : Option (String → K8sJobRead)) : ScanStatusResponse :=
  let results := get_session_results db session_id
  let completed := results.countP (fun r => r.success)
  let failed := results.length - completed
  let jobsList : List (String × String × JobStatusCounts) :=
    match k8s with
    | some read =>
      results.foldr (fun r acc =>
        if strOptTruthy r.k8s_job_name then
          match get_job_status read (r.k8s_job_name.getD "") with
          | .ok st => (r.k8s_job_id.getD "", r.k8s_job_name.getD "", st) :: acc
          | .error _ => acc
        else acc) []
    | none => []
  let all_jobs_finished : Bool :=
    match k8s with
    | some read => results.all (jobRecordFinished read)
    | none => if results.isEmpty then false else results.all (fun r => !(r.output == ""))
  let scan_completed := decide (0 < results.length) && all_jobs_finished
  { session_id := session_id,
    status := if scan_completed then "completed" else "running",
    total_repos := results.length,
    completed_repos := completed,
    failed_repos := failed,
    jobs := jobsList }

/-- One entry of the `repos` list of an add-repos request. -/
structure RepoEntry where
  name : String
  url : String
deriving Repr, DecidableEq

/-- External effects one loop iteration of `add_repos_to_scan` can hit:
the live-count query made inside `acquire_job_slot`, the
`k8s_client.create_job` call (`.ok (job_name, job_id)` or raising), and the
wall-clock timestamp the pending row is stamped with. -/
structure RepoEnv where
  live_count : Except Unit Nat
  create_job : Except Unit (String × String)
  now : String
deriving Repr

/-- One created-job record in the add-repos response. -/
structure JobInfo where
  repo_name : String
  job_name : String
  job_id : String
deriving Repr, DecidableEq

/-- Loop state of `add_repos_to_scan`: the store plus the `created_jobs`
and `queued_repos` accumulators. -/
structure AddReposState where
  db : ResultsDB
  created_jobs : List JobInfo
  queued_repos : List RepoEntry
deriving Repr, DecidableEq

/-- Body of the per-repo loop of `add_repos_to_scan`: skip falsy names/urls;
skip names in the prefetched analyzed set; acquire a slot (queue the repo on
denial); create the job (on a raise, log and continue — the store is not
touched); on success write the pending row (`success=False`, `output=""`,
no s3 path) and record the created job. -/
def addReposStep (session_id : Nat) (analyzed : List String) (max_parallel : Nat)
    (st : AddReposState) (item : RepoEntry × RepoEnv) : AddReposState :=
  let repo := item.1
  let env := item.2
  if repo.name == "" || repo.url == "" then st
  else if analyzed.contains repo.name then st
  else
    let slot := (acquire_job_slot session_id max_parallel (fun _ => env.live_count)).1
    if !slot then
      { st with queued_repos := st.queued_repos ++ [repo] }
    else
      match env.create_job with
      | .error _ => st
      | .ok (job_name, job_id) =>
        { db := save_result st.db session_id repo.name repo.url false "" env.now
            none (some job_id) (some job_name),
          created_jobs := st.created_jobs ++ [⟨repo.name, job_name, job_id⟩],
          queued_repos := st.queued_repos }

/-- Response of `POST /api/v1/scans/{session_id}/repos` (`AddReposResponse`). -/
structure AddReposResponse where
  session_id : Nat
  jobs_created : Nat
  jobs : List JobInfo
  queued_repos : Nat
  queued_repos_list : List RepoEntry
  max_parallel_jobs : Nat
  active_jobs : Nat
deriving Repr, DecidableEq

/-- `add_repos_to_scan` after validation and session lookup: prefetch the
analyzed-name set once, run the loop, then take a final live count for the
response (falling back to the number of jobs just created if it raises).
Returns the final loop state together with the response. -/
def add_repos_to_scan (db : ResultsDB) (session_id : Nat) (max_parallel : Nat)
    (items : List (RepoEntry × RepoEnv)) (final_count : Except Unit Nat) :
    AddReposState × AddReposResponse :=
  let analyzed := get_analyzed_repos db session_id
  let st := items.foldl (addReposStep session_id analyzed max_parallel) ⟨db, [], []⟩
  let active_jobs :=
    match final_count with
    | .ok n => n
    | .error _ => st.created_jobs.length
  (st, ⟨session_id, st.created_jobs.length, st.created_jobs, st.queued_repos.length,
    st.queued_repos, max_parallel, active_jobs⟩)

/-- The `result` object of a worker status update; fields read with
`.get(..., default)` get their Python defaults. An absent/falsy `repo` is
modelled by `""`. -/
structure ResultPayload where
  repo : String
  url : String
  success : Bool
  output : String
  s3_path : Option String
deriving Repr, DecidableEq

/-- Body of `POST /api/v1/jobs/{job_id}/status`: `session_id` may be absent,
`result` may be absent or falsy (both modelled by `none`). -/
structure StatusUpdate where
  session_id : Option Nat
  result : Option ResultPayload
deriving Repr, DecidableEq

/-- Response body of `update_job_status`. -/
structure UpdateStatusResponse where
  status : String
  job_id : String
deriving Repr, DecidableEq

/-- `update_job_status` (worker callback): with no (or falsy) `result` it
acknowledges immediately, touching nothing; otherwise it validates
`session_id`, `repo` and (when nonempty) `url`, raising an HTTP 400
(modelled as `.error`) on violations; then it looks up the `k8s_job_name`
stored on the first session row with the same repo name and upserts the
terminal values via `save_result`, stamping the row with the path `job_id`. -/
def update_job_status (job_id : String) (status_update : StatusUpdate)
    (now : String) (db : ResultsDB) : Except String (ResultsDB × UpdateStatusResponse) :=
  match status_update.result with
  | none => .ok (db, ⟨"ok", job_id⟩)
  | some r =>
    match status_update.session_id with
    | none => .error "Missing required field session_id in status update"
    | some session_id =>
      if !(validate_session_id session_id) then
        .error "invalid session_id"
      else if r.repo == "" then
        .error "Missing required field repo in result"
      else if !(validate_repo_name r.repo) then
        .error "Invalid repo name"
      else if !(r.url == "") && !(validate_repo_url r.url) then
        .error "Invalid repo URL"
      else
        let existing := get_session_results db session_id
        let job_name :=
          match existing.find? (fun er => er.repo_name == r.repo) with
          | some er => er.k8s_job_name
          | none => none
        .ok (save_result db session_id r.repo r.url r.success r.output now
          r.s3_path (some job_id) job_name, ⟨"ok", job_id⟩)

/-- An operation against the store, as performed by the two API entry points
that write results. -/
inductive ApiOp where
  | addRepos (session_id max_parallel : Nat) (items : List (RepoEntry × RepoEnv))
      (final_count : Except Unit Nat)
  | reportStatus (job_id : String) (status_update : StatusUpdate) (now : String)

/-- Effect of one operation on the store (a raising `update_job_status`
leaves the store untouched). -/
def apiStep (db : ResultsDB) (op : ApiOp) : ResultsDB :=
  match op with
  | .addRepos session_id max_parallel items final_count =>
    (add_repos_to_scan db session_id max_parallel items final_count).1.db
  | .reportStatus job_id status_update now =>
    match update_job_status job_id status_update now db with
    | .ok (db', _) => db'
    | .error _ => db

/-- Store reached by a sequence of operations from the freshly initialized
(empty) database. -/
def runOps (ops : List ApiOp) : ResultsDB :=
  ops.foldl apiStep []

/-! ### Shared lemmas about `save_result` -/

/-- Rows matching the upserted key after `save_result` are exactly the one
fresh row. -/
theorem save_result_filter_key (db : ResultsDB) (sid : Nat) (name url : String)
    (success : Bool) (output ts : String) (s3 jid jn : Option String) :
    (save_result db sid name url success output ts s3 jid jn).filter (keyMatch sid name) =
      [⟨sid, name, url, success, output, ts, s3, jid, jn⟩] := by
  unfold save_result
  rw [List.filter_append, List.filter_filter]
  have h1 : db.filter (fun r => keyMatch sid name r && !keyMatch sid name r) = [] := by
    simp [List.filter_eq_nil_iff]
  have h2 : List.filter (keyMatch sid name)
      [(⟨sid, name, url, success, output, ts, s3, jid, jn⟩ : ResultRow)] =
      [⟨sid, name, url, success, output, ts, s3, jid, jn⟩] := by
    simp [keyMatch]
  rw [h1, h2, List.nil_append]

/-- Rows not matching the upserted key are untouched by `save_result`. -/
theorem save_result_filter_not_key (db : ResultsDB) (sid : Nat) (name url : String)
    (success : Bool) (output ts : String) (s3 jid jn : Option String) :
    (save_result db sid name url success output ts s3 jid jn).filter
        (fun r => !(keyMatch sid name r)) =
      db.filter (fun r => !(keyMatch sid name r)) := by
  unfold save_result
  rw [List.filter_append, List.filter_filter]
  have h2 : List.filter (fun r => !(keyMatch sid name r))
      [(⟨sid, name, url, success, output, ts, s3, jid, jn⟩ : ResultRow)] = [] := by
    simp [keyMatch]
  rw [h2, List.append_nil]
  congr 1
  funext r
  cases keyMatch sid name r <;> rfl

/-- Invariant I1: at most one row per `(session_id, repo_name)` key. -/
def uniqueKeys (db : ResultsDB) : Prop :=
  ∀ sid name, db.countP (keyMatch sid name) ≤ 1

theorem uniqueKeys_nil : uniqueKeys [] := by
  intro sid name
  simp [List.countP, List.countP.go]

/-- `save_result` preserves invariant I1 (it deletes the conflicting rows
before inserting). -/
theorem uniqueKeys_save_result (db : ResultsDB) (sid : Nat) (name url : String)
    (success : Bool) (output ts : String) (s3 jid jn : Option String)
    (h : uniqueKeys db) :
    uniqueKeys (save_result db sid name url success output ts s3 jid jn) := by
  intro sid' name'
  unfold save_result
  rw [List.countP_append, List.countP_filter]
  by_cases hk : sid' = sid ∧ name' = name
  · obtain ⟨rfl, rfl⟩ := hk
    have hz : db.countP (fun r => keyMatch sid' name' r && !keyMatch sid' name' r) = 0 := by
      simp [List.countP_eq_zero]
    rw [hz]
    simp [List.countP, List.countP.go, keyMatch]
  · have hz : List.countP (keyMatch sid' name')
        [(⟨sid, name, url, success, output, ts, s3, jid, jn⟩ : ResultRow)] = 0 := by
      simp only [List.countP_eq_zero]
      intro r hr
      rcases List.mem_singleton.mp hr with rfl
      simp only [keyMatch, Bool.and_eq_true, beq_iff_eq]
      intro hcon
      exact hk ⟨hcon.1.symm, hcon.2.symm⟩
    rw [hz]
    calc db.countP (fun r => keyMatch sid' name' r && !keyMatch sid name r) + 0
        ≤ db.countP (keyMatch sid' name') + 0 := by
          gcongr
          apply List.countP_mono_left
          intro r _ hr
          exact (Bool.and_eq_true _ _).mp hr |>.1
      _ ≤ 1 := by simpa using h sid' name'

/-- The store reached by one `add_repos_to_scan` loop iteration is either
untouched or a `save_result` of the pending values on top of the previous
store. -/
theorem addReposStep_db_shape (sid : Nat) (analyzed : List String) (mp : Nat)
    (st : AddReposState) (item : RepoEntry × RepoEnv) :
    (addReposStep sid analyzed mp st item).db = st.db ∨
    ∃ jid jn, (addReposStep sid analyzed mp st item).db =
      save_result st.db sid item.1.name item.1.url false "" item.2.now
        none (some jid) (some jn) := by
  unfold addReposStep
  dsimp only
  split
  · left; rfl
  · split
    · left; rfl
    · split
      · left; rfl
      · split
        · left; rfl
        · right; exact ⟨_, _, rfl⟩

theorem uniqueKeys_addReposStep (sid : Nat) (analyzed : List String) (mp : Nat)
    (st : AddReposState) (item : RepoEntry × RepoEnv) (h : uniqueKeys st.db) :
    uniqueKeys (addReposStep sid analyzed mp st item).db := by
  rcases addReposStep_db_shape sid analyzed mp st item with heq | ⟨jid, jn, heq⟩
  · rw [heq]; exact h
  · rw [heq]; exact uniqueKeys_save_result _ _ _ _ _ _ _ _ _ _ h

theorem uniqueKeys_addRepos_foldl (sid : Nat) (analyzed : List String) (mp : Nat) :
    ∀ (items : List (RepoEntry × RepoEnv)) (st : AddReposState), uniqueKeys st.db →
    uniqueKeys (items.foldl (addReposStep sid analyzed mp) st).db := by
  intro items
  induction items with
  | nil => intro st h; exact h
  | cons item rest ih =>
    intro st h
    exact ih _ (uniqueKeys_addReposStep sid analyzed mp st item h)

/-- A successful `update_job_status` either leaves the store alone (no
result payload) or performs exactly one `save_result`. -/
theorem update_job_status_db_shape (job_id : String) (su : StatusUpdate)
    (now : String) (db db' : ResultsDB) (resp : UpdateStatusResponse)
    (h : update_job_status job_id su now db = .ok (db', resp)) :
    db' = db ∨ ∃ sid name url suc out s3 jid jn,
      db' = save_result db sid name url suc out now s3 jid jn := by
  unfold update_job_status at h
  split at h
  · left
    exact (congrArg Prod.fst (Except.ok.inj h)).symm
  · split at h
    · exact absurd h (by simp)
    · split at h
      · exact absurd h (by simp)
      · split at h
        · exact absurd h (by simp)
        · split at h
          · exact absurd h (by simp)
          · split at h
            · exact absurd h (by simp)
            · right
              simp only [Except.ok.injEq, Prod.mk.injEq] at h
              exact ⟨_, _, _, _, _, _, _, _, h.1.symm⟩

theorem uniqueKeys_apiStep (db : ResultsDB) (op : ApiOp) (h : uniqueKeys db) :
    uniqueKeys (apiStep db op) := by
  cases op with
  | addRepos sid mp items fc =>
    exact uniqueKeys_addRepos_foldl sid _ mp items ⟨db, [], []⟩ h
  | reportStatus jid su now =>
    unfold apiStep
    dsimp only
    cases hcall : update_job_status jid su now db with
    | error e => exact h
    | ok pair =>
      obtain ⟨db', resp⟩ := pair
      dsimp only
      rcases update_job_status_db_shape jid su now db db' resp hcall with
        heq | ⟨sid, name, url, suc, out, s3, jid', jn, heq⟩
      · rw [heq]; exact h
      · rw [heq]; exact uniqueKeys_save_result _ _ _ _ _ _ _ _ _ _ h

theorem uniqueKeys_runOps (ops : List ApiOp) : uniqueKeys (runOps ops) := by
  unfold runOps
  have hgen : ∀ (l : List ApiOp) (db : ResultsDB), uniqueKeys db →
      uniqueKeys (l.foldl apiStep db) := by
    intro l
    induction l with
    | nil => intro db h; exact h
    | cons op rest ih => intro db h; exact ih _ (uniqueKeys_apiStep db op h)
  exact hgen ops [] uniqueKeys_nil

/-! ### Claim theorems -/

/-- C1: `acquire_job_slot` grants exactly when the live count it observes in
the critical section is strictly below `max_parallel`; when the live-count
query raises, the observed count is taken to be `max_parallel` and the slot
is denied (fail closed), so a grant is never optimistic. -/
theorem acquire_job_slot_fail_closed (session_id max_parallel : Nat)
    (count_active_jobs : Nat → Except Unit Nat) :
    ((acquire_job_slot session_id max_parallel count_active_jobs).1 = true ↔
      (acquire_job_slot session_id max_parallel count_active_jobs).2 < max_parallel) ∧
    (∀ n, count_active_jobs session_id = .ok n →
      (acquire_job_slot session_id max_parallel count_active_jobs).2 = n) ∧
    (count_active_jobs session_id = .error () →
      (acquire_job_slot session_id max_parallel count_active_jobs).1 = false ∧
      (acquire_job_slot session_id max_parallel count_active_jobs).2 = max_parallel) := by
  unfold acquire_job_slot
  cases h : count_active_jobs session_id with
  | ok n => simp [h]
  | error e => simp [h]

/-- Witness for C1: with a raising counter the slot is denied and the
observed count equals `max_parallel`; with a live count of 1 out of 3 the
observed count is the live one. -/
theorem acquire_job_slot_fail_closed_witness :
    (acquire_job_slot 7 3 (fun _ => Except.error ())).1 = false ∧
    (acquire_job_slot 7 3 (fun _ => Except.error ())).2 = 3 ∧
    (acquire_job_slot 7 3 (fun _ => Except.ok 1)).2 = 1 := by
  have h1 := acquire_job_slot_fail_closed 7 3 (fun _ => Except.error ())
  have h2 := acquire_job_slot_fail_closed 7 3 (fun _ => Except.ok 1)
  exact ⟨(h1.2.2 rfl).1, (h1.2.2 rfl).2, h2.2.1 1 rfl⟩

/-- C2 (invariant I1): after any sequence of add-repos and worker-callback
operations starting from a fresh store, the session results contain at most
one row per repo name. -/
theorem get_session_results_at_most_one_per_repo (ops : List ApiOp) (sid : Nat)
    (name : String) :
    (get_session_results (runOps ops) sid).countP (fun r => r.repo_name == name) ≤ 1 := by
  have hu := uniqueKeys_runOps ops sid name
  unfold get_session_results
  rw [List.countP_filter]
  have hfun : (fun r => (r.repo_name == name) && (r.session_id == sid)) = keyMatch sid name := by
    funext r
    simp [keyMatch, Bool.and_comm]
  rw [hfun]
  exact hu

/-- C4: upserting pending values and then terminal values for the same
`(session_id, repo_name)` leaves exactly one row for that key, carrying the
terminal values; all other rows are untouched — the operation is an
insert-or-replace that is safe to repeat. -/
theorem save_result_pending_then_terminal (db : ResultsDB) (sid : Nat)
    (name url_p url_t : String) (suc : Bool) (out ts1 ts2 : String)
    (s3p s3 jidp jid jnp jn : Option String) :
    (save_result (save_result db sid name url_p false "" ts1 s3p jidp jnp)
        sid name url_t suc out ts2 s3 jid jn).filter (keyMatch sid name) =
      [⟨sid, name, url_t, suc, out, ts2, s3, jid, jn⟩] ∧
    (save_result (save_result db sid name url_p false "" ts1 s3p jidp jnp)
        sid name url_t suc out ts2 s3 jid jn).filter (fun r => !(keyMatch sid name r)) =
      db.filter (fun r => !(keyMatch sid name r)) := by
  constructor
  · exact save_result_filter_key _ _ _ _ _ _ _ _ _ _
  · rw [save_result_filter_not_key, save_result_filter_not_key]

/-- C10: a worker callback whose body has no (or a falsy) `result` is
acknowledged with `{"status": "ok", "job_id": job_id}` without any
session-id or repo validation and without touching the store. -/
theorem update_job_status_no_result_noop (job_id : String) (su : StatusUpdate)
    (now : String) (db : ResultsDB) (h : su.result = none) :
    update_job_status job_id su now db = .ok (db, ⟨"ok", job_id⟩) := by
  unfold update_job_status
  rw [h]

/-- Witness for C10: even with an invalid (nonpositive) session id in the
body, a result-less callback is acknowledged and the store is unchanged. -/
theorem update_job_status_no_result_noop_witness :
    update_job_status "job-1"
        ⟨some 0, none⟩ "2024-01-01"
        [⟨1, "o/r", "https://github.com/o/r", false, "", "t0", none, some "id0", some "jn0"⟩] =
      .ok ([⟨1, "o/r", "https://github.com/o/r", false, "", "t0", none, some "id0", some "jn0"⟩],
        ⟨"ok", "job-1"⟩) :=
  update_job_status_no_result_noop "job-1" ⟨some 0, none⟩ "2024-01-01"
    [⟨1, "o/r", "https://github.com/o/r", false, "", "t0", none, some "id0", some "jn0"⟩] rfl

/-- C7: a valid worker callback upserts the terminal values for
`(session_id, repo_name)`, leaving exactly one row for that key; the stored
`k8s_job_name` of the first existing session row with the same repo name is
preserved (the caller does not supply it); with no prior row the upsert
still succeeds and creates the terminal row directly, with no job name. -/
theorem update_job_status_upserts_terminal (job_id : String) (su : StatusUpdate)
    (now : String) (db : ResultsDB) (p : ResultPayload) (sid : Nat)
    (hres : su.result = some p)
    (hsid : su.session_id = some sid)
    (hvs : validate_session_id sid = true)
    (hrepo : ¬(p.repo = ""))
    (hvn : validate_repo_name p.repo = true)
    (hvu : p.url = "" ∨ validate_repo_url p.url = true) :
    ∃ db' row, update_job_status job_id su now db = .ok (db', ⟨"ok", job_id⟩) ∧
      db'.filter (keyMatch sid p.repo) = [row] ∧
      row.session_id = sid ∧ row.repo_name = p.repo ∧
      row.repo_url = p.url ∧ row.success = p.success ∧ row.output = p.output ∧
      row.analyzed_at = now ∧ row.s3_path = p.s3_path ∧ row.k8s_job_id = some job_id ∧
      (∀ r0, (get_session_results db sid).find? (fun er => er.repo_name == p.repo) = some r0 →
        row.k8s_job_name = r0.k8s_job_name) ∧
      ((get_session_results db sid).find? (fun er => er.repo_name == p.repo) = none →
        row.k8s_job_name = none) := by
  have h1 : (!validate_session_id sid) = false := by rw [hvs]; rfl
  have h2 : (p.repo == "") = false := by simpa using hrepo
  have h3 : (!validate_repo_name p.repo) = false := by rw [hvn]; rfl
  have h4 : (!(p.url == "") && !validate_repo_url p.url) = false := by
    rcases hvu with h | h
    · simp [h]
    · simp [h]
  have heq : update_job_status job_id su now db =
      .ok (save_result db sid p.repo p.url p.success p.output now p.s3_path (some job_id)
        (match (get_session_results db sid).find? (fun er => er.repo_name == p.repo) with
         | some er => er.k8s_job_name
         | none => none), ⟨"ok", job_id⟩) := by
    unfold update_job_status
    rw [hres, hsid]
    simp only [h1, h2, h3, h4, Bool.false_eq_true, if_false]
  cases hfind : (get_session_results db sid).find? (fun er => er.repo_name == p.repo) with
  | some r0 =>
    rw [hfind] at heq
    refine ⟨_, ⟨sid, p.repo, p.url, p.success, p.output, now, p.s3_path, some job_id,
      r0.k8s_job_name⟩, heq, ?_, rfl, rfl, rfl, rfl, rfl, rfl, rfl, rfl, ?_, ?_⟩
    · exact save_result_filter_key _ _ _ _ _ _ _ _ _ _
    · intro r1 hr1
      rcases Option.some.inj hr1 with rfl
      rfl
    · intro hnone
      exact absurd hnone (by simp)
  | none =>
    rw [hfind] at heq
    refine ⟨_, ⟨sid, p.repo, p.url, p.success, p.output, now, p.s3_path, some job_id,
      none⟩, heq, ?_, rfl, rfl, rfl, rfl, rfl, rfl, rfl, rfl, ?_, ?_⟩
    · exact save_result_filter_key _ _ _ _ _ _ _ _ _ _
    · intro r1 hr1
      exact absurd hr1 (by simp)
    · intro _
      rfl

/-- Witness for C7: a worker reports terminal values over an existing
pending row; one terminal row remains and it inherits the stored
`k8s_job_name`. -/
theorem update_job_status_upserts_terminal_witness :
    ∃ db' row,
      update_job_status "id-new"
          ⟨some 1, some ⟨"o/r", "https://github.com/o/r", true, "findings", some "s3://x"⟩⟩
          "t1" [⟨1, "o/r", "https://github.com/o/r", false, "", "t0", none, some "id0",
            some "jn-1"⟩] =
        .ok (db', ⟨"ok", "id-new"⟩) ∧
      db'.filter (keyMatch 1 "o/r") = [row] ∧
      row.output = "findings" ∧
      row.k8s_job_name = some "jn-1" := by
  obtain ⟨db', row, heq, hfilter, _, _, _, _, hout, _, _, _, hpres, _⟩ :=
    update_job_status_upserts_terminal "id-new"
      ⟨some 1, some ⟨"o/r", "https://github.com/o/r", true, "findings", some "s3://x"⟩⟩
      "t1" [⟨1, "o/r", "https://github.com/o/r", false, "", "t0", none, some "id0",
        some "jn-1"⟩]
      ⟨"o/r", "https://github.com/o/r", true, "findings", some "s3://x"⟩ 1
      rfl rfl (by decide) (by decide) (by decide) (Or.inr (by decide))
  exact ⟨db', row, heq, hfilter, hout,
    hpres ⟨1, "o/r", "https://github.com/o/r", false, "", "t0", none, some "id0",
      some "jn-1"⟩ (by decide)⟩

/-- C8: with `max_parallel = 2`, three valid not-yet-analyzed repos, and the
live counter returning 2 on every check, no job is created and all three
repos come back in the queued list. -/
theorem add_repos_all_queued_when_full :
    validate_repo_name "o/r1" = true ∧ validate_repo_name "o/r2" = true ∧
    validate_repo_name "o/r3" = true ∧
    (let items : List (RepoEntry × RepoEnv) :=
      [(⟨"o/r1", "https://github.com/o/r1"⟩, ⟨.ok 2, .ok ("jn1", "id1"), "t"⟩),
       (⟨"o/r2", "https://github.com/o/r2"⟩, ⟨.ok 2, .ok ("jn2", "id2"), "t"⟩),
       (⟨"o/r3", "https://github.com/o/r3"⟩, ⟨.ok 2, .ok ("jn3", "id3"), "t"⟩)]
     let out := add_repos_to_scan [] 1 2 items (.ok 2)
     out.2.jobs_created = 0 ∧ out.2.queued_repos = 3 ∧
     out.2.queued_repos_list =
       [⟨"o/r1", "https://github.com/o/r1"⟩, ⟨"o/r2", "https://github.com/o/r2"⟩,
        ⟨"o/r3", "https://github.com/o/r3"⟩] ∧
     out.2.max_parallel_jobs = 2 ∧ out.2.active_jobs = 2 ∧ out.1.db = []) := by
  refine ⟨by decide, by decide, by decide, ?_⟩
  exact ⟨rfl, rfl, rfl, rfl, rfl, rfl⟩

/-- Membership in the analyzed-name set, unfolded to a row witness. -/
theorem mem_analyzed_iff (db : ResultsDB) (sid : Nat) (n : String) :
    n ∈ get_analyzed_repos db sid ↔ ∃ r, r ∈ db ∧ r.session_id = sid ∧ r.repo_name = n := by
  unfold get_analyzed_repos
  simp only [List.mem_map, List.mem_filter, beq_iff_eq]
  constructor
  · rintro ⟨r, ⟨hr, hsid⟩, hname⟩
    exact ⟨r, hr, hsid, hname⟩
  · rintro ⟨r, hr, hsid, hname⟩
    exact ⟨r, ⟨hr, hsid⟩, hname⟩

/-- `save_result` never removes a name from a session's analyzed set. -/
theorem analyzed_save_result_superset (db : ResultsDB) (sid sid2 : Nat)
    (name2 url : String) (suc : Bool) (out ts : String) (s3 jid jn : Option String)
    (n : String) (h : n ∈ get_analyzed_repos db sid) :
    n ∈ get_analyzed_repos (save_result db sid2 name2 url suc out ts s3 jid jn) sid := by
  rw [mem_analyzed_iff] at h ⊢
  obtain ⟨r, hr, hsid, hname⟩ := h
  by_cases hk : keyMatch sid2 name2 r = true
  · have hks : r.session_id = sid2 ∧ r.repo_name = name2 := by
      simpa [keyMatch] using hk
    refine ⟨⟨sid2, name2, url, suc, out, ts, s3, jid, jn⟩, ?_, ?_, ?_⟩
    · unfold save_result
      exact List.mem_append_right _ (List.mem_singleton.mpr rfl)
    · rw [← hks.1, hsid]
    · rw [← hks.2, hname]
  · refine ⟨r, ?_, hsid, hname⟩
    unfold save_result
    refine List.mem_append_left _ (List.mem_filter.mpr ⟨hr, ?_⟩)
    simp [hk]

/-- The name just upserted by `save_result` is in the session's analyzed set. -/
theorem analyzed_save_result_self (db : ResultsDB) (sid : Nat) (name url : String)
    (suc : Bool) (out ts : String) (s3 jid jn : Option String) :
    name ∈ get_analyzed_repos (save_result db sid name url suc out ts s3 jid jn) sid := by
  rw [mem_analyzed_iff]
  refine ⟨⟨sid, name, url, suc, out, ts, s3, jid, jn⟩, ?_, rfl, rfl⟩
  unfold save_result
  exact List.mem_append_right _ (List.mem_singleton.mpr rfl)

/-- Full case analysis of one `add_repos_to_scan` loop iteration: the state
is unchanged (falsy entry, already-analyzed name, or raising job creation);
or the repo is queued; or a job is created, with the pending row written.
The last two can only happen when the name is outside the prefetched
analyzed set. -/
theorem addReposStep_shape (sid : Nat) (analyzed : List String) (mp : Nat)
    (st : AddReposState) (item : RepoEntry × RepoEnv) :
    addReposStep sid analyzed mp st item = st ∨
    (item.1.name ∉ analyzed ∧ addReposStep sid analyzed mp st item =
      { st with queued_repos := st.queued_repos ++ [item.1] }) ∨
    (item.1.name ∉ analyzed ∧ ∃ jn jid, addReposStep sid analyzed mp st item =
      { db := save_result st.db sid item.1.name item.1.url false "" item.2.now
          none (some jid) (some jn),
        created_jobs := st.created_jobs ++ [⟨item.1.name, jn, jid⟩],
        queued_repos := st.queued_repos }) := by
  unfold addReposStep
  dsimp only
  split
  · left; rfl
  · split
    · left; rfl
    next hcont =>
      have hnot : item.1.name ∉ analyzed := by
        simpa using hcont
      split
      · right; left; exact ⟨hnot, rfl⟩
      · split
        · left; rfl
        · right; right; exact ⟨hnot, _, _, rfl⟩

/-- Every job created by the loop comes from an input entry whose name is
outside the prefetched analyzed set. -/
theorem addRepos_foldl_created_from (sid : Nat) (analyzed : List String) (mp : Nat) :
    ∀ (items : List (RepoEntry × RepoEnv)) (st : AddReposState),
    ∀ j ∈ (items.foldl (addReposStep sid analyzed mp) st).created_jobs,
      j ∈ st.created_jobs ∨
      (j.repo_name ∉ analyzed ∧ ∃ item ∈ items, item.1.name = j.repo_name) := by
  intro items
  induction items with
  | nil => intro st j hj; exact Or.inl hj
  | cons item rest ih =>
    intro st j hj
    rcases ih (addReposStep sid analyzed mp st item) j hj with hmem | ⟨hnot, it, hit, hname⟩
    · rcases addReposStep_shape sid analyzed mp st item with heq | ⟨hnotA, heq⟩ |
        ⟨hnotA, jn, jid, heq⟩
      · rw [heq] at hmem; exact Or.inl hmem
      · rw [heq] at hmem; exact Or.inl hmem
      · rw [heq] at hmem
        rcases List.mem_append.mp hmem with hold | hnew
        · exact Or.inl hold
        · rcases List.mem_singleton.mp hnew with rfl
          exact Or.inr ⟨hnotA, item, List.mem_cons_self _ _, rfl⟩
    · exact Or.inr ⟨hnot, it, List.mem_cons_of_mem _ hit, hname⟩

/-- Every repo queued by the loop has a name outside the prefetched
analyzed set. -/
theorem addRepos_foldl_queued_from (sid : Nat) (analyzed : List String) (mp : Nat) :
    ∀ (items : List (RepoEntry × RepoEnv)) (st : AddReposState),
    ∀ q ∈ (items.foldl (addReposStep sid analyzed mp) st).queued_repos,
      q ∈ st.queued_repos ∨ q.name ∉ analyzed := by
  intro items
  induction items with
  | nil => intro st q hq; exact Or.inl hq
  | cons item rest ih =>
    intro st q hq
    rcases ih (addReposStep sid analyzed mp st item) q hq with hmem | hnot
    · rcases addReposStep_shape sid analyzed mp st item with heq | ⟨hnotA, heq⟩ |
        ⟨hnotA, jn, jid, heq⟩
      · rw [heq] at hmem; exact Or.inl hmem
      · rw [heq] at hmem
        rcases List.mem_append.mp hmem with hold | hnew
        · exact Or.inl hold
        · rcases List.mem_singleton.mp hnew with rfl
          exact Or.inr hnotA
      · rw [heq] at hmem; exact Or.inl hmem
    · exact Or.inr hnot

/-- Along the loop, every created job's repo name is in the analyzed set of
the current store (its pending row has been written). -/
theorem addRepos_foldl_created_analyzed (sid : Nat) (analyzed : List String) (mp : Nat) :
    ∀ (items : List (RepoEntry × RepoEnv)) (st : AddReposState),
    (∀ j ∈ st.created_jobs, j.repo_name ∈ get_analyzed_repos st.db sid) →
    ∀ j ∈ (items.foldl (addReposStep sid analyzed mp) st).created_jobs,
      j.repo_name ∈ get_analyzed_repos (items.foldl (addReposStep sid analyzed mp) st).db sid := by
  intro items
  induction items with
  | nil => intro st h j hj; exact h j hj
  | cons item rest ih =>
    intro st h
    refine ih (addReposStep sid analyzed mp st item) ?_
    rcases addReposStep_shape sid analyzed mp st item with heq | ⟨hnotA, heq⟩ |
      ⟨hnotA, jn, jid, heq⟩
    · rw [heq]; exact h
    · rw [heq]; exact h
    · rw [heq]
      intro j hj
      rcases List.mem_append.mp hj with hold | hnew
      · exact analyzed_save_result_superset _ _ _ _ _ _ _ _ _ _ _ _ (h j hold)
      · rcases List.mem_singleton.mp hnew with rfl
        exact analyzed_save_result_self _ _ _ _ _ _ _ _ _ _

/-- C5: `add_repos_to_scan` never creates a job or queues a repo whose name
is already in the session's analyzed set at call time; every created job
comes from the input list and its name is in the analyzed set of the
resulting store (so a repeated call with an overlapping list skips it);
hence when every input name is either already analyzed or equals a single
new name, jobs are dispatched only for that new name. -/
theorem add_repos_skips_analyzed (db : ResultsDB) (sid mp : Nat)
    (items : List (RepoEntry × RepoEnv)) (fc : Except Unit Nat) :
    (∀ j ∈ (add_repos_to_scan db sid mp items fc).1.created_jobs,
      j.repo_name ∉ get_analyzed_repos db sid ∧
      (∃ item ∈ items, item.1.name = j.repo_name) ∧
      j.repo_name ∈ get_analyzed_repos (add_repos_to_scan db sid mp items fc).1.db sid) ∧
    (∀ q ∈ (add_repos_to_scan db sid mp items fc).1.queued_repos,
      q.name ∉ get_analyzed_repos db sid) ∧
    (∀ newName,
      (∀ item ∈ items, item.1.name ∈ get_analyzed_repos db sid ∨ item.1.name = newName) →
      ∀ j ∈ (add_repos_to_scan db sid mp items fc).1.created_jobs,
        j.repo_name = newName) := by
  have hst : (add_repos_to_scan db sid mp items fc).1 =
      items.foldl (addReposStep sid (get_analyzed_repos db sid) mp) ⟨db, [], []⟩ := rfl
  have hcreated : ∀ j ∈ (add_repos_to_scan db sid mp items fc).1.created_jobs,
      j.repo_name ∉ get_analyzed_repos db sid ∧
      ∃ item ∈ items, item.1.name = j.repo_name := by
    intro j hj
    rw [hst] at hj
    rcases addRepos_foldl_created_from sid (get_analyzed_repos db sid) mp items
      ⟨db, [], []⟩ j hj with hmem | ⟨hnot, hit⟩
    · exact absurd hmem (List.not_mem_nil j)
    · exact ⟨hnot, hit⟩
  refine ⟨?_, ?_, ?_⟩
  · intro j hj
    refine ⟨(hcreated j hj).1, (hcreated j hj).2, ?_⟩
    rw [hst] at hj ⊢
    exact addRepos_foldl_created_analyzed sid (get_analyzed_repos db sid) mp items
      ⟨db, [], []⟩ (by intro j hj; exact absurd hj (List.not_mem_nil j)) j hj
  · intro q hq
    rw [hst] at hq
    rcases addRepos_foldl_queued_from sid (get_analyzed_repos db sid) mp items
      ⟨db, [], []⟩ q hq with hmem | hnot
    · exact absurd hmem (List.not_mem_nil q)
    · exact hnot
  · intro newName hall j hj
    obtain ⟨hnot, it, hit, hname⟩ := hcreated j hj
    rcases hall it hit with hin | hnew
    · rw [hname] at hin
      exact absurd hin hnot
    · rw [← hname, hnew]

/-- Witness for C5: session 1 already analyzed `o/r1`; submitting
`o/r1` and `o/rnew` with free slots creates jobs only for `o/rnew`. -/
theorem add_repos_skips_analyzed_witness :
    ((add_repos_to_scan
        [⟨1, "o/r1", "https://github.com/o/r1", true, "done", "t0", none, none, none⟩]
        1 2
        [(⟨"o/r1", "https://github.com/o/r1"⟩, ⟨.ok 0, .ok ("jn1", "id1"), "t"⟩),
         (⟨"o/rnew", "https://github.com/o/rnew"⟩, ⟨.ok 0, .ok ("jnn", "idn"), "t"⟩)]
        (.ok 1)).1.created_jobs.all (fun j => j.repo_name == "o/rnew")) = true := by
  have h := (add_repos_skips_analyzed
    [⟨1, "o/r1", "https://github.com/o/r1", true, "done", "t0", none, none, none⟩]
    1 2
    [(⟨"o/r1", "https://github.com/o/r1"⟩, ⟨.ok 0, .ok ("jn1", "id1"), "t"⟩),
     (⟨"o/rnew", "https://github.com/o/rnew"⟩, ⟨.ok 0, .ok ("jnn", "idn"), "t"⟩)]
    (.ok 1)).2.2 "o/rnew" (by decide)
  exact List.all_eq_true.mpr (fun j hj => beq_iff_eq.mpr (h j hj))

/-- C6 counterexample: with a free slot and a raising `create_job`, the
failed repo leaves no trace in the store — in particular no terminal
`success=false` row is recorded for it (the claim asserts one is). -/
theorem add_repos_create_failure_no_row_counterexample :
    (add_repos_to_scan [] 1 2
      [(⟨"o/r1", "https://github.com/o/r1"⟩, ⟨.ok 0, .error (), "t"⟩)]
      (.ok 0)).1.db = [] ∧
    (add_repos_to_scan [] 1 2
      [(⟨"o/r1", "https://github.com/o/r1"⟩, ⟨.ok 0, .error (), "t"⟩)]
      (.ok 0)).2.jobs_created = 0 ∧
    (add_repos_to_scan [] 1 2
      [(⟨"o/r1", "https://github.com/o/r1"⟩, ⟨.ok 0, .error (), "t"⟩)]
      (.ok 0)).2.queued_repos = 0 :=
  ⟨rfl, rfl, rfl⟩

/-- C6 amended: a raising `create_job` for a single repo never aborts the
batch — the run is identical to the run without that repo (the remaining
repos are processed the same way) — but the failed repo is only logged: it
is recorded neither as a Result row nor in the queued list. -/
theorem add_repos_create_failure_skips_repo (db : ResultsDB) (sid mp : Nat)
    (pre post : List (RepoEntry × RepoEnv)) (bad : RepoEntry × RepoEnv)
    (fc : Except Unit Nat)
    (hname : ¬(bad.1.name = "")) (hurl : ¬(bad.1.url = ""))
    (hnew : bad.1.name ∉ get_analyzed_repos db sid)
    (hslot : ∃ n, bad.2.live_count = .ok n ∧ n < mp)
    (hfail : bad.2.create_job = .error ()) :
    add_repos_to_scan db sid mp (pre ++ bad :: post) fc =
      add_repos_to_scan db sid mp (pre ++ post) fc := by
  obtain ⟨n, hlc, hlt⟩ := hslot
  have h1 : (bad.1.name == "" || bad.1.url == "") = false := by
    simp [hname, hurl]
  have h2 : (get_analyzed_repos db sid).contains bad.1.name = false := by
    simpa using hnew
  have h3 : (acquire_job_slot sid mp (fun _ => bad.2.live_count)).1 = true := by
    unfold acquire_job_slot
    rw [hlc]
    simpa using hlt
  have hstep : ∀ st, addReposStep sid (get_analyzed_repos db sid) mp st bad = st := by
    intro st
    simp [addReposStep, h1, h2, h3, hfail]
  have hfold : List.foldl (addReposStep sid (get_analyzed_repos db sid) mp)
      ⟨db, [], []⟩ (pre ++ bad :: post) =
      List.foldl (addReposStep sid (get_analyzed_repos db sid) mp)
      ⟨db, [], []⟩ (pre ++ post) := by
    rw [List.foldl_append, List.foldl_append, List.foldl_cons, hstep]
  simp only [add_repos_to_scan]
  rw [hfold]

/-- Witness for C6 amended: a batch whose first repo's job creation raises
produces exactly the outcome of the batch without it. -/
theorem add_repos_create_failure_skips_repo_witness :
    add_repos_to_scan [] 1 2
        [(⟨"o/r1", "https://github.com/o/r1"⟩, ⟨.ok 0, .error (), "t"⟩),
         (⟨"o/r2", "https://github.com/o/r2"⟩, ⟨.ok 0, .ok ("jn2", "id2"), "t"⟩)]
        (.ok 1) =
      add_repos_to_scan [] 1 2
        [(⟨"o/r2", "https://github.com/o/r2"⟩, ⟨.ok 0, .ok ("jn2", "id2"), "t"⟩)]
        (.ok 1) :=
  add_repos_create_failure_skips_repo [] 1 2 []
    [(⟨"o/r2", "https://github.com/o/r2"⟩, ⟨.ok 0, .ok ("jn2", "id2"), "t"⟩)]
    (⟨"o/r1", "https://github.com/o/r1"⟩, ⟨.ok 0, .error (), "t"⟩)
    (.ok 1) (by decide) (by decide) (by decide) ⟨0, rfl, by decide⟩ rfl

/-- What a result row that passes the finished-check can look like: terminal
output; or a checkable job that the backend reports finished or whose status
read raised; or no usable job reference at all. -/
theorem jobRecordFinished_true_cases (read : String → K8sJobRead) (r : ResultRow)
    (h : jobRecordFinished read r = true) :
    r.output ≠ "" ∨
    (∃ jn, r.k8s_job_name = some jn ∧ jn ≠ "" ∧
      (read jn = .apiError ∨ ∃ st, read jn = .found st ∧
        (0 < st.succeeded ∨ 0 < st.failed) ∧ st.active = 0)) ∨
    (strOptTruthy r.k8s_job_name = false ∧ strOptTruthy r.k8s_job_id = false) := by
  unfold jobRecordFinished at h
  split at h
  next htr =>
    obtain ⟨jn, hname, hjne⟩ : ∃ jn, r.k8s_job_name = some jn ∧ ¬(jn = "") := by
      cases hn : r.k8s_job_name with
      | none => rw [hn] at htr; simp [strOptTruthy] at htr
      | some jn =>
        refine ⟨jn, rfl, ?_⟩
        rw [hn] at htr
        simpa [strOptTruthy] using htr
    right; left
    refine ⟨jn, hname, hjne, ?_⟩
    rw [hname] at h
    simp only [Option.getD_some] at h
    unfold get_job_status at h
    cases hread : read jn with
    | found st =>
      rw [hread] at h
      simp only [decide_eq_true_eq] at h
      exact Or.inr ⟨st, rfl, h⟩
    | notFound =>
      rw [hread] at h
      simp at h
    | apiError =>
      exact Or.inl rfl
  next hfa =>
    split at h
    next hid =>
      left
      simpa using h
    next hid2 =>
      right; right
      exact ⟨by simpa using hfa, by simpa using hid2⟩

/-- `get_scan_status` reports only the two states `completed` and `running`. -/
theorem get_scan_status_status_cases (db : ResultsDB) (sid : Nat)
    (k8s : Option (String → K8sJobRead)) :
    (get_scan_status db sid k8s).status = "completed" ∨
    (get_scan_status db sid k8s).status = "running" := by
  have hgen : ∀ (c : Bool) (a b : String), (if c then a else b) = a ∨ (if c then a else b) = b := by
    intro c a b
    cases c
    · right; rfl
    · left; rfl
  unfold get_scan_status
  dsimp only
  exact hgen _ _ _

/-- The completion condition of `get_scan_status`, unfolded: at least one
result, and every row passes the mode's finished-check. -/
theorem get_scan_status_completed_iff (db : ResultsDB) (sid : Nat)
    (k8s : Option (String → K8sJobRead)) :
    (get_scan_status db sid k8s).status = "completed" ↔
    (0 < (get_session_results db sid).length ∧
      match k8s with
      | some read => (get_session_results db sid).all (jobRecordFinished read) = true
      | none => (get_session_results db sid).all (fun r => !(r.output == "")) = true) := by
  by_cases hlen : 0 < (get_session_results db sid).length
  · have hne : (get_session_results db sid).isEmpty = false := by
      have h1 : get_session_results db sid ≠ [] := List.length_pos.mp hlen
      simpa [List.isEmpty_iff] using h1
    cases k8s with
    | some read =>
      by_cases hall : (get_session_results db sid).all (jobRecordFinished read) = true
      · simp [get_scan_status, hlen, hall]
      · simp [get_scan_status, hlen, hall]
    | none =>
      by_cases hall : (get_session_results db sid).all (fun r => !(r.output == "")) = true
      · simp [get_scan_status, hlen, hne, hall]
      · simp [get_scan_status, hlen, hne, hall]
  · cases k8s with
    | some read => simp [get_scan_status, hlen]
    | none => simp [get_scan_status, hlen]

/-- C3 counterexample: a session with a single pending row (empty output)
whose job-status read raises is reported `completed`, although the stored
result is not terminal — refuting "completed only when every result is
terminal". -/
theorem get_scan_status_completed_with_pending_counterexample :
    (get_scan_status
      [⟨1, "o/r", "https://github.com/o/r", false, "", "t", none, some "jid", some "jn"⟩]
      1 (some (fun _ => .apiError))).status = "completed" ∧
    (get_session_results
      [⟨1, "o/r", "https://github.com/o/r", false, "", "t", none, some "jid", some "jn"⟩]
      1).all (fun r => !(r.output == "")) = false :=
  ⟨rfl, rfl⟩

/-- C3 amended: `get_scan_status` returns `running` whenever the session has
no results, or some result's job (job_name present, status read succeeding)
still reports `active > 0`; it returns `completed` only when at least one
result exists and every result is terminal (nonempty output), or has a
checkable job that the backend reports finished (succeeded or failed, none
active) or whose status read raises, or carries no job reference at all. -/
theorem get_scan_status_running_completed (db : ResultsDB) (sid : Nat)
    (k8s : Option (String → K8sJobRead)) :
    (get_session_results db sid = [] → (get_scan_status db sid k8s).status = "running") ∧
    (∀ read r jn a s f, k8s = some read → r ∈ get_session_results db sid →
      r.output = "" → r.k8s_job_name = some jn → ¬(jn = "") →
      read jn = .found ⟨a, s, f⟩ → 0 < a →
      (get_scan_status db sid k8s).status = "running") ∧
    ((get_scan_status db sid k8s).status = "completed" →
      get_session_results db sid ≠ [] ∧
      ∀ r ∈ get_session_results db sid,
        r.output ≠ "" ∨
        (∃ read jn, k8s = some read ∧ r.k8s_job_name = some jn ∧ jn ≠ "" ∧
          (read jn = .apiError ∨ ∃ st, read jn = .found st ∧
            (0 < st.succeeded ∨ 0 < st.failed) ∧ st.active = 0)) ∨
        (strOptTruthy r.k8s_job_name = false ∧ strOptTruthy r.k8s_job_id = false)) := by
  refine ⟨?_, ?_, ?_⟩
  · intro hempty
    rcases get_scan_status_status_cases db sid k8s with hc | hr
    · rw [get_scan_status_completed_iff] at hc
      rw [hempty] at hc
      simp at hc
    · exact hr
  · intro read r jn a s f hk hr hout hname hjne hread ha
    subst hk
    have hfin : jobRecordFinished read r = false := by
      have ha0 : ¬(a = 0) := by omega
      simp [jobRecordFinished, strOptTruthy, hname, hjne, get_job_status, hread, ha0]
    rcases get_scan_status_status_cases db sid (some read) with hc | hrun
    · rw [get_scan_status_completed_iff] at hc
      have hall := hc.2
      have := List.all_eq_true.mp hall r hr
      rw [hfin] at this
      simp at this
    · exact hrun
  · intro hcomp
    rw [get_scan_status_completed_iff] at hcomp
    obtain ⟨hlen, hrest⟩ := hcomp
    refine ⟨List.length_pos.mp hlen, ?_⟩
    intro r hr
    cases k8s with
    | some read =>
      have hfin := List.all_eq_true.mp hrest r hr
      rcases jobRecordFinished_true_cases read r hfin with h1 | ⟨jn, h2⟩ | h3
      · exact Or.inl h1
      · exact Or.inr (Or.inl ⟨read, jn, rfl, h2⟩)
      · exact Or.inr (Or.inr h3)
    | none =>
      have := List.all_eq_true.mp hrest r hr
      exact Or.inl (by simpa using this)

/-- Witness for C3 amended: an empty session is `running`, and a session
with a pending row whose live job still has an active pod is `running`. -/
theorem get_scan_status_running_completed_witness :
    (get_scan_status [] 1 (some (fun _ => .found ⟨0, 1, 0⟩))).status = "running" ∧
    (get_scan_status
      [⟨1, "o/r", "https://github.com/o/r", false, "", "t", none, some "jid", some "jn"⟩]
      1 (some (fun _ => .found ⟨1, 0, 0⟩))).status = "running" := by
  constructor
  · exact (get_scan_status_running_completed [] 1 (some (fun _ => .found ⟨0, 1, 0⟩))).1 rfl
  · exact (get_scan_status_running_completed
      [⟨1, "o/r", "https://github.com/o/r", false, "", "t", none, some "jid", some "jn"⟩]
      1 (some (fun _ => .found ⟨1, 0, 0⟩))).2.1 (fun _ => .found ⟨1, 0, 0⟩)
      ⟨1, "o/r", "https://github.com/o/r", false, "", "t", none, some "jid", some "jn"⟩
      "jn" 1 0 0 rfl (by decide) rfl rfl (by decide) rfl (by decide)

/-! ### Lemmas for `generate_job_name` (C9) -/

/-- Target character class for Kubernetes resource names: lowercase letter,
digit, or hyphen. -/
def lowerAlnumHyphen (c : Char) : Prop :=
  ('a' ≤ c ∧ c ≤ 'z') ∨ c.isDigit = true ∨ c = '-'

instance (c : Char) : Decidable (lowerAlnumHyphen c) := by
  unfold lowerAlnumHyphen
  infer_instance

theorem digitChar_isDigit (n : Nat) (h : n < 10) : (Nat.digitChar n).isDigit = true := by
  interval_cases n <;> decide

theorem toDigitsCore_all_digit :
    ∀ (fuel n : Nat) (acc : List Char), (∀ c ∈ acc, c.isDigit = true) →
    ∀ c ∈ Nat.toDigitsCore 10 fuel n acc, c.isDigit = true := by
  intro fuel
  induction fuel with
  | zero => intro n acc hacc c hc; exact hacc c hc
  | succ fuel ih =>
    intro n acc hacc c hc
    simp only [Nat.toDigitsCore] at hc
    by_cases hdiv : n / 10 = 0
    · rw [if_pos hdiv] at hc
      rcases List.mem_cons.mp hc with h | h
      · subst h; exact digitChar_isDigit _ (Nat.mod_lt _ (by norm_num))
      · exact hacc c h
    · rw [if_neg hdiv] at hc
      refine ih (n / 10) (Nat.digitChar (n % 10) :: acc) ?_ c hc
      intro d hd
      rcases List.mem_cons.mp hd with h | h
      · subst h; exact digitChar_isDigit _ (Nat.mod_lt _ (by norm_num))
      · exact hacc d h

/-- Every character of the decimal rendering of a `Nat` is a digit. -/
theorem repr_all_digit (n : Nat) : ∀ c ∈ (Nat.repr n).data, c.isDigit = true := by
  intro c hc
  have hdata : (Nat.repr n).data = Nat.toDigits 10 n := rfl
  rw [hdata] at hc
  exact toDigitsCore_all_digit (n + 1) n [] (by intro d hd; cases hd) c hc

theorem toDigitsCore_length_le :
    ∀ (k fuel n : Nat) (acc : List Char), n < 10 ^ (k + 1) →
    (Nat.toDigitsCore 10 fuel n acc).length ≤ acc.length + (k + 1) := by
  intro k
  induction k with
  | zero =>
    intro fuel n acc hn
    cases fuel with
    | zero => simp [Nat.toDigitsCore]
    | succ fuel =>
      have hdiv : n / 10 = 0 := Nat.div_eq_of_lt (by simpa using hn)
      simp [Nat.toDigitsCore, hdiv]
  | succ k ih =>
    intro fuel n acc hn
    cases fuel with
    | zero => simp [Nat.toDigitsCore]
    | succ fuel =>
      simp only [Nat.toDigitsCore]
      by_cases hdiv : n / 10 = 0
      · rw [if_pos hdiv]; simp only [List.length_cons]; omega
      · rw [if_neg hdiv]
        have hlt : n / 10 < 10 ^ (k + 1) := by
          have h10 : 0 < 10 := by norm_num
          rw [Nat.div_lt_iff_lt_mul h10]
          calc n < 10 ^ (k + 1 + 1) := hn
          _ = 10 ^ (k + 1) * 10 := by ring
        have hrec := ih fuel (n / 10) (Nat.digitChar (n % 10) :: acc) hlt
        simp only [List.length_cons] at hrec
        omega

/-- A session id below `2^31` renders to at most 10 digits. -/
theorem repr_length_le (n : Nat) (h : n ≤ 2 ^ 31 - 1) : (Nat.repr n).length ≤ 10 := by
  have hdata : (Nat.repr n).data = Nat.toDigitsCore 10 (n + 1) n [] := rfl
  have hn : n < 10 ^ 10 := by omega
  have hlen := toDigitsCore_length_le 9 (n + 1) n [] (by norm_num; omega)
  simp only [String.length, hdata]
  simpa using hlen

theorem sanitize_ofNat_ok : ∀ n, n < 128 →
    (allowedNameChar (Char.ofNat n) || (Char.ofNat n == '/')) = true →
    lowerAlnumHyphen (sanitizeChar (Char.ofNat n)) := by decide

theorem allowed_toNat_lt (c : Char) (h : allowedNameChar c = true) : c.toNat < 128 := by
  simp [allowedNameChar, Char.isAlpha, Char.isUpper, Char.isLower, Char.isDigit,
    Char.le_def, UInt32.le_def, BitVec.le_def] at h
  show c.val.toBitVec.toNat < 128
  rcases h with ((((h | h) | h) | h) | h) | h
  · omega
  · omega
  · omega
  · subst h; decide
  · subst h; decide
  · subst h; decide

/-- Sanitizing a character that the repo-name validator admits (or the `/`
separator) yields a lowercase letter, digit, or hyphen. -/
theorem sanitizeChar_ok (c : Char) (h : (allowedNameChar c || (c == '/')) = true) :
    lowerAlnumHyphen (sanitizeChar c) := by
  have hlt : c.toNat < 128 := by
    rcases Bool.or_eq_true_iff.mp h with h1 | h1
    · exact allowed_toNat_lt c h1
    · have hc : c = '/' := by simpa using h1
      subst hc; decide
  have h2 := sanitize_ofNat_ok c.toNat hlt
  rw [Char.ofNat_toNat] at h2
  exact h2 h

theorem splitOnChar_ne_nil (sep : Char) (l : List Char) : splitOnChar sep l ≠ [] := by
  cases l with
  | nil => simp [splitOnChar]
  | cons c rest =>
    unfold splitOnChar
    dsimp only
    split
    · simp
    · split <;> simp

theorem splitOnChar_singleton (sep : Char) :
    ∀ (l x : List Char), splitOnChar sep l = [x] → l = x := by
  intro l
  induction l with
  | nil =>
    intro x h
    simpa [splitOnChar] using h
  | cons c rest ih =>
    intro x h
    unfold splitOnChar at h
    dsimp only at h
    by_cases hc : (c == sep) = true
    · rw [if_pos hc] at h
      injection h with _ h2
      exact absurd h2 (splitOnChar_ne_nil sep rest)
    · rw [if_neg hc] at h
      cases htail : splitOnChar sep rest with
      | nil => exact absurd htail (splitOnChar_ne_nil sep rest)
      | cons f fs =>
        rw [htail] at h
        injection h with h1 h2
        subst h2
        rw [← h1, ih f htail]

/-- A two-field split means the list is `owner ++ sep :: repo` — exactly one
separator. -/
theorem splitOnChar_pair (sep : Char) :
    ∀ (l a b : List Char), splitOnChar sep l = [a, b] → l = a ++ sep :: b := by
  intro l
  induction l with
  | nil =>
    intro a b h
    simp [splitOnChar] at h
  | cons c rest ih =>
    intro a b h
    unfold splitOnChar at h
    dsimp only at h
    by_cases hc : (c == sep) = true
    · rw [if_pos hc] at h
      injection h with h1 h2
      have hrest := splitOnChar_singleton sep rest b (by
        rw [h2])
      rw [← h1, hrest, (beq_iff_eq).mp hc]
      rfl
    · rw [if_neg hc] at h
      cases htail : splitOnChar sep rest with
      | nil => exact absurd htail (splitOnChar_ne_nil sep rest)
      | cons f fs =>
        rw [htail] at h
        injection h with h1 h2
        subst h2
        have hrest := ih f b htail
        rw [← h1, hrest]
        rfl

theorem mem_of_getLast?_eq_some {α : Type} {l : List α} {a : α}
    (h : l.getLast? = some a) : a ∈ l := by
  rcases List.mem_getLast?_eq_getLast (Option.mem_def.mpr h) with ⟨hne, heq⟩
  rw [heq]
  exact List.getLast_mem hne

/-- Every character of a validated repo name containing no newline is in
the admitted class or is the single `/` separator.  (A validated name may
also carry one trailing newline, accepted by the regex's `$` — the
counterexample below — which is why the newline exclusion is needed.) -/
theorem validate_repo_name_chars (name : String) (hnl : '\n' ∉ name.data)
    (h : validate_repo_name name = true) :
    ∀ c ∈ name.data, (allowedNameChar c || (c == '/')) = true := by
  unfold validate_repo_name at h
  split at h
  · exact absurd h (by simp)
  next hpat =>
    have hpat2 : namePatternMatches name.data = true := by
      simpa using hpat
    unfold namePatternMatches at hpat2
    have hlast : ¬(name.data.getLast? = some '\n') := fun hcon =>
      hnl (mem_of_getLast?_eq_some hcon)
    rw [if_neg hlast] at hpat2
    split at hpat2
    next owner repo heq =>
      simp only [Bool.and_eq_true] at hpat2
      obtain ⟨⟨⟨h1, h2⟩, h3⟩, h4⟩ := hpat2
      have hsplit := splitOnChar_pair '/' name.data owner repo heq
      intro c hc
      rw [hsplit] at hc
      rcases List.mem_append.mp hc with hmem | hmem
      · simp [List.all_eq_true.mp h3 c hmem]
      · rcases List.mem_cons.mp hmem with rfl | hmem2
        · simp
        · simp [List.all_eq_true.mp h4 c hmem2]
    next => exact absurd hpat2 (by simp)

/-- C9 counterexample: the repo-name validator accepts `"o/r\n"` (Python's
`$` matches before the single trailing newline), and the job name generated
from it contains that newline — which is not a lowercase alphanumeric or a
hyphen — refuting the claimed character set for all accepted names. -/
theorem generate_job_name_newline_counterexample :
    validate_session_id 42 = true ∧
    validate_repo_name "o/r\n" = true ∧
    '\n' ∈ (generate_job_name 42 "o/r\n" "abc12345").data ∧
    ¬ lowerAlnumHyphen '\n' := by decide

/-- C9 amended: for a valid session id and a repo name accepted by
`validate_repo_name` that contains no newline, the generated job name
decomposes as `semgrep-{session_id}-{mid}-{unique_suffix}` with `mid` at
most 40 characters, contains only lowercase alphanumerics and hyphens, and
is at most 68 characters long (8 for the tool tag, at most 10 digits of
session id, at most 40 sanitized name characters, 8 suffix characters, and
the separators). -/
theorem generate_job_name_spec (session_id : Nat) (repo_name unique_suffix : String)
    (hsid : validate_session_id session_id = true)
    (hname : validate_repo_name repo_name = true)
    (hnl : '\n' ∉ repo_name.data)
    (hsuflen : unique_suffix.length = 8)
    (hsufc : ∀ c ∈ unique_suffix.data, c.isDigit = true ∨ ('a' ≤ c ∧ c ≤ 'f')) :
    (∃ mid, generate_job_name session_id repo_name unique_suffix =
        "semgrep-" ++ Nat.repr session_id ++ "-" ++ mid ++ "-" ++ unique_suffix ∧
      mid.length ≤ 40) ∧
    (∀ c ∈ (generate_job_name session_id repo_name unique_suffix).data, lowerAlnumHyphen c) ∧
    (generate_job_name session_id repo_name unique_suffix).length ≤ 68 := by
  have hdata : (generate_job_name session_id repo_name unique_suffix).data =
      (((("semgrep-".data ++ (Nat.repr session_id).data) ++ "-".data) ++
        (repo_name.data.map sanitizeChar).take 40) ++ "-".data) ++ unique_suffix.data := rfl
  have htake : ((repo_name.data.map sanitizeChar).take 40).length ≤ 40 := by
    rw [List.length_take]
    exact min_le_left _ _
  refine ⟨⟨String.mk ((repo_name.data.map sanitizeChar).take 40), rfl, htake⟩, ?_, ?_⟩
  · intro c hc
    rw [hdata] at hc
    simp only [List.mem_append] at hc
    rcases hc with ((((hc | hc) | hc) | hc) | hc) | hc
    · have hall : ∀ c ∈ "semgrep-".data, lowerAlnumHyphen c := by decide
      exact hall c hc
    · exact Or.inr (Or.inl (repr_all_digit session_id c hc))
    · have hall : ∀ c ∈ "-".data, lowerAlnumHyphen c := by decide
      exact hall c hc
    · have hc2 := List.mem_of_mem_take hc
      rcases List.mem_map.mp hc2 with ⟨c0, hc0, rfl⟩
      exact sanitizeChar_ok c0 (validate_repo_name_chars repo_name hnl hname c0 hc0)
    · have hall : ∀ c ∈ "-".data, lowerAlnumHyphen c := by decide
      exact hall c hc
    · rcases hsufc c hc with hd | ⟨hge, hle⟩
      · exact Or.inr (Or.inl hd)
      · exact Or.inl ⟨hge, le_trans hle (by decide)⟩
  · have hsid2 : session_id ≤ 2 ^ 31 - 1 := by
      simp only [validate_session_id, Bool.and_eq_true, decide_eq_true_eq] at hsid
      exact hsid.2
    have hrepr : ((Nat.repr session_id).data).length ≤ 10 := repr_length_le session_id hsid2
    have hsuf : (unique_suffix.data).length = 8 := hsuflen
    have hlen : (generate_job_name session_id repo_name unique_suffix).length =
        (generate_job_name session_id repo_name unique_suffix).data.length := rfl
    rw [hlen, hdata]
    simp only [List.length_append, List.length_cons, List.length_nil]
    omega

/-- Witness for C9: a concrete mixed-case repo name with `_` and `.` yields
a sanitized, bounded job name. -/
theorem generate_job_name_spec_witness :
    (generate_job_name 42 "Owner_X/Repo.Y" "abc12345").length ≤ 68 ∧
    generate_job_name 42 "Owner_X/Repo.Y" "abc12345" = "semgrep-42-owner-x-repo-y-abc12345" := by
  constructor
  · exact (generate_job_name_spec 42 "Owner_X/Repo.Y" "abc12345" (by decide) (by decide)
      (by decide) (by decide) (by decide)).2.2
  · rfl
